import Mathlib

/- Verification of the data-transformation pipeline of GlobalMigrationVis (app.py):
   loading and cleaning of the migration table, the merge with country geometries,
   and the three per-tab derivations (choropleth values, globe flow arcs, top-N
   Sankey). Numeric cell values are modelled as rationals; missing cells as `none`. -/

namespace MigrationVis

/-- A long-format input record: {Entity, Year, Total number of international immigrants}. -/
structure LongRow where
  entity : String
  year : ℤ
  value : ℚ
  deriving DecidableEq, Repr

/-- First non-missing value of a row segment (used by backward fill). -/
def firstSome : List (Option ℚ) → Option ℚ
  | [] => none
  | some v :: _ => some v
  | none :: xs => firstSome xs

/-- Pandas `bfill(axis=1)`: each missing cell takes the next non-missing value at or
after its own position. -/
def bfill : List (Option ℚ) → List (Option ℚ)
  | [] => []
  | x :: xs => firstSome (x :: xs) :: bfill xs

/-- Forward-fill helper carrying the last non-missing value seen so far. -/
def ffillFrom : Option ℚ → List (Option ℚ) → List (Option ℚ)
  | _, [] => []
  | prev, none :: xs => prev :: ffillFrom prev xs
  | _, some v :: xs => some v :: ffillFrom (some v) xs

/-- Pandas `ffill(axis=1)`: each missing cell takes the last non-missing value before it. -/
def ffill (l : List (Option ℚ)) : List (Option ℚ) := ffillFrom none l

/-- Cell at position `i` of a row (`none` when out of range or missing). -/
def valIdx (l : List (Option ℚ)) (i : ℕ) : Option ℚ := (l.get? i).getD none

/-- Last non-missing cell at position `≤ p`, with its position. -/
def lastSomeLE (l : List (Option ℚ)) : ℕ → Option (ℕ × ℚ)
  | 0 => (valIdx l 0).map fun v => (0, v)
  | p + 1 =>
    match valIdx l (p + 1) with
    | some v => some (p + 1, v)
    | none => lastSomeLE l p

/-- First non-missing cell of a row, with its position. -/
def firstSomeIdx : List (Option ℚ) → Option (ℕ × ℚ)
  | [] => none
  | some v :: _ => some (0, v)
  | none :: xs => (firstSomeIdx xs).map fun p => (p.1 + 1, p.2)

/-- Next non-missing cell strictly after position `p`, with its position. -/
def nextSomeGT (l : List (Option ℚ)) (p : ℕ) : Option (ℕ × ℚ) :=
  (firstSomeIdx (l.drop (p + 1))).map fun q => (p + 1 + q.1, q.2)

/-- Pandas `interpolate(axis=1)` (linear method, default forward limit direction) at
one position: cells before the first non-missing one stay missing, gaps between two
non-missing cells are filled by positional linear interpolation, and cells after the
last non-missing one are padded with its value. -/
def interpAt (l : List (Option ℚ)) (p : ℕ) : Option ℚ :=
  match lastSomeLE l p with
  | none => none
  | some (i, a) =>
    if i = p then some a
    else
      match nextSomeGT l p with
      | none => some a
      | some (j, b) => some (a + (b - a) * (((p : ℚ) - (i : ℚ)) / ((j : ℚ) - (i : ℚ))))

/-- Pandas `interpolate(axis=1)` over a whole row. -/
def interp (l : List (Option ℚ)) : List (Option ℚ) :=
  (List.range l.length).map (interpAt l)

/-- Line 15 of app.py: `df_wide.interpolate(axis=1).bfill(axis=1).ffill(axis=1)`,
applied to one row. -/
def fillRow (l : List (Option ℚ)) : List (Option ℚ) := ffill (bfill (interp l))

/-- C2: on a row whose 5 ordered year cells are [missing, 10, missing, 30, missing],
the fill pipeline (linear interpolation, then backward fill, then forward fill)
produces exactly [10, 10, 20, 30, 30]. -/
theorem c2_fill_pattern_example :
    fillRow [none, some 10, none, some 30, none] =
      [some 10, some 10, some 20, some 30, some 30] := by
  norm_num [fillRow, ffill, ffillFrom, bfill, firstSome, interp, interpAt, lastSomeLE,
    nextSomeGT, firstSomeIdx, valIdx, List.range_succ]

/-- Lexicographic comparison of character lists by code point, the order Python uses
to compare strings. -/
def lexLe : List Char → List Char → Bool
  | [], _ => true
  | _ :: _, [] => false
  | c :: cs, d :: ds =>
    if c.toNat < d.toNat then true
    else if d.toNat < c.toNat then false
    else lexLe cs ds

/-- The Python string comparison: lexicographic by code point. -/
def strLe (a b : String) : Bool := lexLe a.data b.data

/-- Python `sorted` of the distinct members of a string list (ascending, by code points). -/
def sortedDedup (l : List String) : List String :=
  l.dedup.insertionSort fun a b => strLe a b = true

/-- Python `sorted` of the distinct members of an integer list (ascending). -/
def sortedDedupInt (l : List ℤ) : List ℤ := l.dedup.insertionSort (· ≤ ·)

/-- The year columns of the pivoted table: the distinct Year values, ascending. -/
def yearCols (rows : List LongRow) : List ℤ := sortedDedupInt (rows.map (·.year))

/-- The row index of the pivoted table: the distinct Entity values, ascending. -/
def entityIndex (rows : List LongRow) : List String := sortedDedup (rows.map (·.entity))

/-- A wide (pivoted) table: one row per entity name, one cell per year column. -/
abbrev WideTable := List (String × List (Option ℚ))

/-- Line 13 of app.py: `df.pivot(index="Entity", columns="Year", values=...)`. Under
the precondition that (Entity, Year) pairs are unique, the first matching record is
the only matching record. -/
def pivot (rows : List LongRow) : WideTable :=
  (entityIndex rows).map fun e =>
    (e, (yearCols rows).map fun y =>
      (rows.find? fun r => r.entity == e && r.year == y).map (·.value))

/-- Number of non-missing cells of a row. -/
def countSome (l : List (Option ℚ)) : ℕ := (l.filter Option.isSome).length

/-- Line 14 of app.py: `df_wide.dropna(thresh=5)` keeps the rows having at least 5
non-missing cells. -/
def dropThresh (t : WideTable) : WideTable := t.filter fun r => 5 ≤ countSome r.2

/-- Line 15 of app.py applied to every row of the table. -/
def fillTable (t : WideTable) : WideTable := t.map fun r => (r.1, fillRow r.2)

/-- Lines 16-20 of app.py: the fixed aggregate-exclusion list. -/
def aggregates : List String :=
  ["Africa", "Americas", "Asia", "Europe", "European Union", "High income",
   "Low income", "Lower middle income", "Upper middle income", "Oceania",
   "World", "North America", "South America", "Sub-Saharan Africa", "Middle East"]

/-- Line 21 of app.py: `df_wide[~df_wide.index.isin(aggregates)]`. -/
def excludeAggregates (t : WideTable) : WideTable :=
  t.filter fun r => !(aggregates.contains r.1)

/-- Lines 22-33 of app.py: the `fix_names` renaming dictionary. -/
def fix_names : List (String × String) :=
  [("United States", "United States of America"),
   ("Czechia", "Czech Republic"),
   ("Democratic Republic of Congo", "Democratic Republic of the Congo"),
   ("Republic of Congo", "Republic of the Congo"),
   ("Eswatini", "Swaziland"),
   ("Timor", "Timor-Leste"),
   ("Myanmar", "Burma"),
   ("North Macedonia", "Macedonia"),
   ("South Sudan", "Sudan"),
   ("Laos", "Lao PDR")]

/-- Renaming of a single row name by the `fix_names` dictionary: exact-match lookup;
a name with no entry passes through unchanged. -/
def fixName (s : String) : String := (fix_names.lookup s).getD s

/-- Line 34 of app.py: `df_wide.rename(index=fix_names, inplace=True)`. -/
def renameRows (t : WideTable) : WideTable := t.map fun r => (fixName r.1, r.2)

/-- Lines 10-35 of app.py (`load_migration_data`): pivot, drop sparse rows, fill,
drop aggregate rows, rename. -/
def load_migration_data (rows : List LongRow) : WideTable :=
  renameRows (excludeAggregates (fillTable (dropThresh (pivot rows))))

/-- One row of the country-geometry table after `load_geometries`: the name column
renamed to Entity, plus the planar centroid of its polygon. The polygon itself and
the centroid computation are presentation-level and abstracted into the centroid
coordinate pair, which no claim computes with. -/
structure GeoRow where
  entity : String
  centroid_lon : ℚ
  centroid_lat : ℚ
  deriving DecidableEq, Repr

/-- One row of the merged table: the geometry side plus the year cells of a migration row. -/
structure MergedRow where
  entity : String
  centroid_lon : ℚ
  centroid_lat : ℚ
  vals : List (ℤ × ℚ)
  deriving DecidableEq, Repr

/-- Line 48 of app.py: `world.merge(df_wide, on="Entity", how="inner")`, after the
year columns of the wide table have been paired with their years. The output keeps the
left (geometry) row order; a left row pairs with every migration row of equal name. -/
def merge (world : List GeoRow) (mig : List (String × List (ℤ × ℚ))) : List MergedRow :=
  world.flatMap fun w =>
    (mig.filter fun m => m.1 == w.entity).map fun m =>
      { entity := w.entity, centroid_lon := w.centroid_lon,
        centroid_lat := w.centroid_lat, vals := m.2 }

/-- Cells of each wide row paired with the year columns. Post-fill every cell is
non-missing, so `getD 0` only strips the `Option` layer. -/
def withYears (years : List ℤ) (t : WideTable) : List (String × List (ℤ × ℚ)) :=
  t.map fun r => (r.1, years.zip (r.2.map fun c => c.getD 0))

/-- Value of a merged row at a year column (`src_row[year]`). -/
def valAt (r : MergedRow) (y : ℤ) : ℚ := (r.vals.lookup y).getD 0

/-- One element of the `flows` list of tab2 (lines 99-105 of app.py). -/
structure FlowRecord where
  from_lon : ℚ
  from_lat : ℚ
  to_lon : ℚ
  to_lat : ℚ
  migrants : ℚ
  deriving DecidableEq, Repr

/-- The flow dict appended for one source row. -/
def mkFlow (s d : MergedRow) (year : ℤ) : FlowRecord :=
  { from_lon := s.centroid_lon, from_lat := s.centroid_lat,
    to_lon := d.centroid_lon, to_lat := d.centroid_lat, migrants := valAt s year }

/-- Lines 97-105 of app.py: the loop over `merged.iterrows()` appending a flow for
every row whose Entity differs from the selected destination. -/
def flowLoop (d : MergedRow) (dest : String) (year : ℤ) : List MergedRow → List FlowRecord
  | [] => []
  | s :: rest =>
    if s.entity ≠ dest then mkFlow s d year :: flowLoop d dest year rest
    else flowLoop d dest year rest

/-- Line 96 of app.py plus the loop: `dest_row = merged[merged["Entity"] ==
selected_dest].iloc[0]` then the flow loop; `none` models the IndexError raised
when no row matches the destination. -/
def flows (merged : List MergedRow) (dest : String) (year : ℤ) :
    Option (List FlowRecord) :=
  (merged.find? fun r => r.entity == dest).map fun d => flowLoop d dest year merged

/-- The constant `N = 10` of tab3. -/
def N : ℕ := 10

/-- Pandas `nlargest(n, col)` with the default keep-first policy: a stable
descending sort by the column, then the first `n` rows. -/
def nlargest (n : ℕ) (year : ℤ) (l : List MergedRow) : List MergedRow :=
  (l.insertionSort fun a b => valAt b year ≤ valAt a year).take n

/-- The label list and link lists handed to `go.Sankey` (lines 140-155 of app.py). -/
structure SankeyData where
  labels : List String
  source : List ℕ
  target : List ℕ
  value : List ℚ
  deriving DecidableEq, Repr

/-- The Sankey derivation of tab3: eligible sources are the merged rows other than
the destination, `top_sources = sources_df.nlargest(N, year)`, `labels` is the list
of top-source entities with the destination appended, `target_index = N`, and each top
source contributes the link (labels.index(entity), target_index, value-at-year). -/
def sankey (merged : List MergedRow) (dest : String) (year : ℤ) : SankeyData :=
  let eligible := merged.filter fun r => r.entity != dest
  let top_sources := nlargest N year eligible
  let labels := top_sources.map (·.entity) ++ [dest]
  { labels := labels,
    source := top_sources.map fun r => labels.indexOf r.entity,
    target := top_sources.map fun _ => N,
    value := top_sources.map fun r => valAt r year }

/-- The choropleth dataset of tab1: per merged row, its entity and its value at the
selected year (the `color=year` column of `px.choropleth(merged, ...)`). -/
def choropleth (merged : List MergedRow) (year : ℤ) : List (String × ℚ) :=
  merged.map fun r => (r.entity, valAt r year)

/-- Line 69 of app.py: `country_options = sorted(merged["Entity"].unique())`. -/
def country_options (merged : List MergedRow) : List String :=
  sortedDedup (merged.map (·.entity))

/-- Line 70 of app.py: `st.selectbox(..., country_options, index=0)`: the default
selected destination is the head of `country_options`. -/
def default_dest (merged : List MergedRow) : Option String :=
  (country_options merged).head?

/-- The full derived output for one (year, destination) selection: the choropleth
values, the globe flow set, and the Sankey data, from the raw inputs. -/
def pipelineOutputs (rows : List LongRow) (world : List GeoRow) (year : ℤ)
    (dest : String) : List (String × ℚ) × Option (List FlowRecord) × SankeyData :=
  let df_wide := load_migration_data rows
  let merged := merge world (withYears (yearCols rows) df_wide)
  (choropleth merged year, flows merged dest year, sankey merged dest year)

theorem interp_length (l : List (Option ℚ)) : (interp l).length = l.length := by
  simp [interp]

theorem bfill_length (l : List (Option ℚ)) : (bfill l).length = l.length := by
  induction l with
  | nil => rfl
  | cons x xs ih => simp [bfill, ih]

theorem ffillFrom_length (prev : Option ℚ) (l : List (Option ℚ)) :
    (ffillFrom prev l).length = l.length := by
  induction l generalizing prev with
  | nil => rfl
  | cons x xs ih => cases x <;> simp [ffillFrom, ih]

theorem fillRow_length (l : List (Option ℚ)) : (fillRow l).length = l.length := by
  simp [fillRow, ffill, ffillFrom_length, bfill_length, interp_length]

theorem exists_isSome_of_countSome_pos {l : List (Option ℚ)} (h : 0 < countSome l) :
    ∃ x ∈ l, x.isSome := by
  unfold countSome at h
  rcases List.exists_mem_of_length_pos h with ⟨x, hx⟩
  exact ⟨x, (List.mem_filter.mp hx).1, (List.mem_filter.mp hx).2⟩

theorem interpAt_of_get? {l : List (Option ℚ)} {p : ℕ} {v : ℚ}
    (h : l.get? p = some (some v)) : interpAt l p = some v := by
  have h' : l[p]? = some (some v) := by rw [← List.get?_eq_getElem?]; exact h
  have hv : valIdx l p = some v := by simp [valIdx, List.get?_eq_getElem?, h']
  cases p with
  | zero => simp [interpAt, lastSomeLE, hv]
  | succ q => simp [interpAt, lastSomeLE, hv]

theorem interp_exists_isSome {l : List (Option ℚ)} (h : ∃ x ∈ l, x.isSome) :
    ∃ y ∈ interp l, y.isSome := by
  rcases h with ⟨x, hx, hs⟩
  rcases Option.isSome_iff_exists.mp hs with ⟨v, rfl⟩
  rcases List.mem_iff_get?.mp hx with ⟨p, hp⟩
  have hlt : p < l.length := by
    by_contra hge
    rw [List.get?_eq_none.mpr (le_of_not_lt hge)] at hp
    cases hp
  refine ⟨some v, ?_, rfl⟩
  have hy : (interp l).get? p = some (some v) := by
    simp only [interp, List.get?_eq_getElem?, List.getElem?_map]
    rw [List.getElem?_range hlt]
    simp [interpAt_of_get? hp]
  exact List.get?_mem hy

theorem firstSome_isSome {l : List (Option ℚ)} (h : ∃ x ∈ l, x.isSome) :
    (firstSome l).isSome := by
  induction l with
  | nil => rcases h with ⟨x, hx, _⟩; cases hx
  | cons x xs ih =>
    cases x with
    | some v => simp [firstSome]
    | none =>
      rcases h with ⟨y, hy, hs⟩
      rcases List.mem_cons.mp hy with rfl | hmem
      · simp at hs
      · simpa [firstSome] using ih ⟨y, hmem, hs⟩

theorem ffillFrom_all_isSome {prev : Option ℚ} (hp : prev.isSome)
    (l : List (Option ℚ)) : ∀ c ∈ ffillFrom prev l, c.isSome := by
  induction l generalizing prev with
  | nil => intro c hc; cases hc
  | cons x xs ih =>
    intro c hc
    cases x with
    | none =>
      rcases List.mem_cons.mp (by simpa [ffillFrom] using hc) with rfl | hmem
      · exact hp
      · exact ih hp _ hmem
    | some v =>
      rcases List.mem_cons.mp (by simpa [ffillFrom] using hc) with rfl | hmem
      · simp
      · exact ih (by simp) _ hmem

theorem fillRow_all_isSome {l : List (Option ℚ)} (h : ∃ x ∈ l, x.isSome) :
    ∀ c ∈ fillRow l, c.isSome := by
  have hi := interp_exists_isSome h
  obtain ⟨y, ys, hcons⟩ : ∃ y ys, interp l = y :: ys := by
    cases hil : interp l with
    | nil => rw [hil] at hi; rcases hi with ⟨x, hx, _⟩; cases hx
    | cons a as => exact ⟨a, as, rfl⟩
  have hhead : (firstSome (y :: ys)).isSome := by
    rw [← hcons]; exact firstSome_isSome hi
  intro c hc
  unfold fillRow at hc
  rw [hcons] at hc
  have hb : bfill (y :: ys) = firstSome (y :: ys) :: bfill ys := rfl
  rw [hb] at hc
  rcases Option.isSome_iff_exists.mp hhead with ⟨q, hq⟩
  rw [hq] at hc
  have hf : ffill (some q :: bfill ys) = some q :: ffillFrom (some q) (bfill ys) := rfl
  rw [hf] at hc
  rcases List.mem_cons.mp hc with rfl | hmem
  · simp
  · exact ffillFrom_all_isSome (by simp) _ c hmem

/-- C5: `dropna(thresh=5)` drops a row with exactly 4 non-missing cells, keeps any
row with 5 or more, and every kept row, run through the fill pipeline, keeps its
length and has every cell non-missing. -/
theorem c5_threshold_and_full_fill (t : WideTable) :
    (∀ r ∈ t, countSome r.2 = 4 → r ∉ dropThresh t) ∧
    (∀ r ∈ t, 5 ≤ countSome r.2 → r ∈ dropThresh t) ∧
    (∀ r ∈ dropThresh t, (fillRow r.2).length = r.2.length ∧
      ∀ c ∈ fillRow r.2, c.isSome) := by
  refine ⟨?_, ?_, ?_⟩
  · intro r _ h4 hmem
    have := (List.mem_filter.mp hmem).2
    simp only [decide_eq_true_eq] at this
    omega
  · intro r hr h5
    exact List.mem_filter.mpr ⟨hr, by simpa using h5⟩
  · intro r hr
    have h5 : 5 ≤ countSome r.2 := by
      have := (List.mem_filter.mp hr).2
      simpa using this
    refine ⟨fillRow_length r.2, fillRow_all_isSome ?_⟩
    exact exists_isSome_of_countSome_pos (by omega)

theorem map_fst_graph {α β : Type} (f : α → β) (l : List α) :
    (l.map fun a => (a, f a)).map Prod.fst = l := by
  induction l with
  | nil => rfl
  | cons x xs ih => simp [ih]

theorem fst_pivot (rows : List LongRow) :
    (pivot rows).map Prod.fst = entityIndex rows := by
  unfold pivot
  exact map_fst_graph _ _

theorem nodup_entityIndex (rows : List LongRow) : (entityIndex rows).Nodup :=
  ((List.perm_insertionSort _ _).nodup_iff).mpr (List.nodup_dedup _)

theorem fst_fillTable (t : WideTable) :
    (fillTable t).map Prod.fst = t.map Prod.fst := by
  simp [fillTable, List.map_map, Function.comp]

theorem nodup_fst_cleaned (rows : List LongRow) :
    ((excludeAggregates (fillTable (dropThresh (pivot rows)))).map Prod.fst).Nodup := by
  have h0 : ((pivot rows).map Prod.fst).Nodup := by
    rw [fst_pivot]; exact nodup_entityIndex rows
  have h1 : ((dropThresh (pivot rows)).map Prod.fst).Nodup :=
    ((List.filter_sublist _).map Prod.fst).nodup h0
  have h2 : ((fillTable (dropThresh (pivot rows))).map Prod.fst).Nodup := by
    rw [fst_fillTable]; exact h1
  exact ((List.filter_sublist _).map Prod.fst).nodup h2

/-- C3 (amended): the output row keys of the loader are pairwise distinct for every
duplicate-free input on which the `fix_names` renaming is injective over the names
that survive cleaning (the unamended claim fails when two surviving names collide
under the renaming, e.g. "Sudan" and "South Sudan"). -/
theorem c3_unique_row_keys_amended (rows : List LongRow)
    (hpre : rows.Pairwise fun a b => ¬(a.entity = b.entity ∧ a.year = b.year))
    (hinj : ∀ a ∈ (excludeAggregates (fillTable (dropThresh (pivot rows)))).map Prod.fst,
      ∀ b ∈ (excludeAggregates (fillTable (dropThresh (pivot rows)))).map Prod.fst,
      fixName a = fixName b → a = b) :
    ((load_migration_data rows).map Prod.fst).Nodup := by
  have hkeys : (load_migration_data rows).map Prod.fst =
      ((excludeAggregates (fillTable (dropThresh (pivot rows)))).map Prod.fst).map
        fixName := by
    simp [load_migration_data, renameRows, List.map_map, Function.comp]
  rw [hkeys]
  exact List.Nodup.map_on hinj (nodup_fst_cleaned rows)

/-- The input refuting C3 as stated: two entities, "Sudan" and "South Sudan", each
carrying the same five distinct years, so no (Entity, Year) pair occurs twice. -/
def c3Rows : List LongRow :=
  ([1990, 1995, 2000, 2005, 2010].map fun y =>
    { entity := "Sudan", year := y, value := 1 }) ++
  ([1990, 1995, 2000, 2005, 2010].map fun y =>
    { entity := "South Sudan", year := y, value := 2 })

/-- C3 counterexample: `c3Rows` has no duplicate (Entity, Year) pair, yet after the
loader runs, the renaming maps "South Sudan" to "Sudan" — also a retained row name —
so the row keys come out as ["Sudan", "Sudan"], not pairwise distinct. -/
theorem c3_unique_row_keys_counterexample :
    (c3Rows.Pairwise fun a b => ¬(a.entity = b.entity ∧ a.year = b.year)) ∧
    (load_migration_data c3Rows).map Prod.fst = ["Sudan", "Sudan"] ∧
    ¬ ((load_migration_data c3Rows).map Prod.fst).Nodup := by
  decide

theorem flowLoop_eq_filter_map (d : MergedRow) (dest : String) (year : ℤ) :
    ∀ l : List MergedRow,
      flowLoop d dest year l =
        (l.filter fun r => r.entity ≠ dest).map fun s => mkFlow s d year
  | [] => rfl
  | s :: rest => by
    by_cases h : s.entity = dest <;>
      simp [flowLoop, h, flowLoop_eq_filter_map d dest year rest]

/-- C4: when the destination is present in the merged table, the globe-flow
derivation yields one flow record per merged row whose Entity differs from the
destination (its centroid as source point, the centroid of the destination row as target
point, its value-at-year as magnitude, in row order), every record arises from such
a non-destination row (the destination contributes no self-flow), and when no other
row exists the flow list is empty. -/
theorem c4_globe_flows (merged : List MergedRow) (dest : String) (year : ℤ)
    (d : MergedRow) (hd : merged.find? (fun r => r.entity == dest) = some d) :
    flows merged dest year =
      some ((merged.filter fun r => r.entity ≠ dest).map fun s => mkFlow s d year) ∧
    (∀ f ∈ flowLoop d dest year merged,
      ∃ s ∈ merged, s.entity ≠ dest ∧ f = mkFlow s d year) ∧
    ((merged.filter fun r => r.entity ≠ dest) = [] →
      flowLoop d dest year merged = []) := by
  refine ⟨by simp [flows, hd, flowLoop_eq_filter_map], ?_, ?_⟩
  · intro f hf
    rw [flowLoop_eq_filter_map] at hf
    rcases List.mem_map.mp hf with ⟨s, hs, rfl⟩
    have hs' := List.mem_filter.mp hs
    exact ⟨s, hs'.1, by simpa using hs'.2, rfl⟩
  · intro hnone
    rw [flowLoop_eq_filter_map, hnone]
    rfl

/-- C6: the merge is a true inner join on the Entity key — a name appears among the
merged entities iff it appears among the geometry entities and among the
migration row names; names on only one side are dropped without error. -/
theorem c6_merge_is_inner_join (world : List GeoRow)
    (mig : List (String × List (ℤ × ℚ))) (n : String) :
    n ∈ (merge world mig).map MergedRow.entity ↔
      n ∈ world.map GeoRow.entity ∧ n ∈ mig.map Prod.fst := by
  simp only [merge, List.mem_map, List.mem_flatMap, List.mem_filter, beq_iff_eq]
  constructor
  · rintro ⟨mr, ⟨w, hw, m, ⟨hm, hme⟩, rfl⟩, rfl⟩
    exact ⟨⟨w, hw, rfl⟩, ⟨m, hm, hme⟩⟩
  · rintro ⟨⟨w, hw, rfl⟩, ⟨m, hm, hme⟩⟩
    exact ⟨_, ⟨w, hw, m, ⟨hm, hme⟩, rfl⟩, rfl⟩

theorem keys_load (rows : List LongRow) :
    (load_migration_data rows).map Prod.fst =
      ((excludeAggregates (fillTable (dropThresh (pivot rows)))).map Prod.fst).map
        fixName := by
  simp [load_migration_data, renameRows, List.map_map, Function.comp]

theorem fixName_not_aggregate {s : String} (h : s ∉ aggregates) :
    fixName s ∉ aggregates := by
  have himg : ∀ p ∈ fix_names, p.2 ∉ aggregates := by decide
  cases hl : fix_names.lookup s with
  | none => simpa [fixName, hl] using h
  | some v =>
    have hmem : (s, v) ∈ fix_names := by
      rcases List.lookup_eq_some_iff.mp hl with ⟨l₁, l₂, heq, _⟩
      rw [heq]
      exact List.mem_append_right _ (List.mem_cons_self _ _)
    simpa [fixName, hl] using himg _ hmem

/-- C7: after the loader completes (the renaming runs after the aggregate filter,
and no image of `fix_names` is an aggregate label), no output row name belongs to
the fixed 15-element aggregate-exclusion set. -/
theorem c7_no_aggregate_row_names (rows : List LongRow) (name : String)
    (h : name ∈ (load_migration_data rows).map Prod.fst) :
    name ∉ aggregates := by
  rw [keys_load] at h
  rcases List.mem_map.mp h with ⟨a, ha, rfl⟩
  rcases List.mem_map.mp ha with ⟨r, hr, rfl⟩
  have hcontains := (List.mem_filter.mp hr).2
  refine fixName_not_aggregate ?_
  simpa using hcontains

/-- A migration input with a single ordinary country, used to instantiate the
hypotheses of the loader theorems. -/
def c7Rows : List LongRow :=
  [1990, 1995, 2000, 2005, 2010].map fun y =>
    { entity := "France", year := y, value := 3 }

theorem c7_witness : "France" ∉ aggregates :=
  c7_no_aggregate_row_names c7Rows "France" (by decide)

/-- C8: the `fix_names` renaming is idempotent — no image of the map is itself a
key, so applying it twice yields the same result as applying it once, for every
string. -/
theorem c8_fix_names_idempotent (s : String) : fixName (fixName s) = fixName s := by
  have himg : ∀ p ∈ fix_names, fix_names.lookup p.2 = none := by decide
  cases hl : fix_names.lookup s with
  | none =>
    have hs : fixName s = s := by simp [fixName, hl]
    rw [hs]
    exact hs
  | some v =>
    have hs : fixName s = v := by simp [fixName, hl]
    have hmem : (s, v) ∈ fix_names := by
      rcases List.lookup_eq_some_iff.mp hl with ⟨l₁, l₂, heq, _⟩
      rw [heq]
      exact List.mem_append_right _ (List.mem_cons_self _ _)
    have hv : fixName v = v := by simp [fixName, himg _ hmem]
    rw [hs, hv]

/-- The merged table exhibiting the failing case of C1: destination "D" plus only two
other countries, so fewer than `N = 10` eligible sources exist. -/
def c1Merged : List MergedRow :=
  [{ entity := "D", centroid_lon := 0, centroid_lat := 0, vals := [(2020, 5)] },
   { entity := "A", centroid_lon := 0, centroid_lat := 0, vals := [(2020, 3)] },
   { entity := "B", centroid_lon := 0, centroid_lat := 0, vals := [(2020, 7)] }]

/-- C1 at a failing input: with two eligible sources the Sankey derivation does
produce labels ["B", "A", "D"] (descending by value, destination appended last),
source indices [0, 1], and edge count min(10, 2) = 2 — but the target index of
every edge is the hard-coded 10, while the destination label "D" sits at position 2, so
the target index is not the position of the destination label. -/
theorem c1_sankey_target_not_destination_position :
    (sankey c1Merged "D" 2020).labels = ["B", "A", "D"] ∧
    (sankey c1Merged "D" 2020).source = [0, 1] ∧
    (sankey c1Merged "D" 2020).target = [10, 10] ∧
    (sankey c1Merged "D" 2020).labels.indexOf "D" = 2 := by
  decide

/-- C9: the pipeline is a pure function of its inputs — two runs on equal input
tables with equal (year, destination) selections produce equal derived datasets
(choropleth values, flow set, Sankey data). -/
theorem c9_pipeline_deterministic (rows₁ rows₂ : List LongRow)
    (world₁ world₂ : List GeoRow) (year₁ year₂ : ℤ) (dest₁ dest₂ : String)
    (hr : rows₁ = rows₂) (hw : world₁ = world₂) (hy : year₁ = year₂)
    (hd : dest₁ = dest₂) :
    pipelineOutputs rows₁ world₁ year₁ dest₁ =
      pipelineOutputs rows₂ world₂ year₂ dest₂ := by
  rw [hr, hw, hy, hd]

theorem c9_witness :
    pipelineOutputs c7Rows [] 1990 "France" = pipelineOutputs c7Rows [] 1990 "France" :=
  c9_pipeline_deterministic c7Rows c7Rows [] [] 1990 1990 "France" "France"
    rfl rfl rfl rfl

theorem lexLe_refl : ∀ as : List Char, lexLe as as = true
  | [] => rfl
  | c :: cs => by simp [lexLe, lexLe_refl cs]

theorem lexLe_total : ∀ as bs : List Char, lexLe as bs = true ∨ lexLe bs as = true
  | [], _ => Or.inl rfl
  | _ :: _, [] => Or.inr rfl
  | c :: cs, d :: ds => by
    by_cases h1 : c.toNat < d.toNat
    · left; simp [lexLe, h1]
    · by_cases h2 : d.toNat < c.toNat
      · right; simp [lexLe, h2]
      · rcases lexLe_total cs ds with ih | ih
        · left; simp [lexLe, h1, h2, ih]
        · right; simp [lexLe, h1, h2, ih]

theorem lexLe_trans : ∀ as bs cs : List Char,
    lexLe as bs = true → lexLe bs cs = true → lexLe as cs = true
  | [], _, _, _, _ => rfl
  | _ :: _, [], _, h, _ => by simp [lexLe] at h
  | _ :: _, _ :: _, [], _, h => by simp [lexLe] at h
  | a :: as, b :: bs, c :: cs, h1, h2 => by
    rw [lexLe] at h1 h2 ⊢
    by_cases hab : a.toNat < b.toNat
    · by_cases hbc : b.toNat < c.toNat
      · rw [if_pos (by omega)]
      · by_cases hcb : c.toNat < b.toNat
        · rw [if_neg hbc, if_pos hcb] at h2; cases h2
        · rw [if_pos (by omega)]
    · by_cases hba : b.toNat < a.toNat
      · rw [if_neg hab, if_pos hba] at h1; cases h1
      · by_cases hbc : b.toNat < c.toNat
        · rw [if_pos (by omega)]
        · by_cases hcb : c.toNat < b.toNat
          · rw [if_neg hbc, if_pos hcb] at h2; cases h2
          · rw [if_neg hab, if_neg hba] at h1
            rw [if_neg hbc, if_neg hcb] at h2
            rw [if_neg (show ¬a.toNat < c.toNat by omega),
              if_neg (show ¬c.toNat < a.toNat by omega)]
            exact lexLe_trans as bs cs h1 h2

instance : IsTotal String fun a b => strLe a b = true :=
  ⟨fun a b => lexLe_total a.data b.data⟩

instance : IsTrans String fun a b => strLe a b = true :=
  ⟨fun a b c => lexLe_trans a.data b.data c.data⟩

/-- C10: when the merged table is non-empty, the default selected destination is
the head of the sorted de-duplicated entity list: an entity name of the merged
table that is lexicographically (by code points, as Python compares strings)
less-or-equal to every merged entity name. -/
theorem c10_default_dest_is_least (merged : List MergedRow) (h : merged ≠ []) :
    ∃ m, default_dest merged = some m ∧ m ∈ merged.map MergedRow.entity ∧
      ∀ n ∈ merged.map MergedRow.entity, strLe m n = true := by
  cases hs : sortedDedup (merged.map MergedRow.entity) with
  | nil =>
    exfalso
    have hperm := List.perm_insertionSort (fun a b => strLe a b = true)
      (merged.map MergedRow.entity).dedup
    rw [show (merged.map MergedRow.entity).dedup.insertionSort
        (fun a b => strLe a b = true) = sortedDedup (merged.map MergedRow.entity)
      from rfl, hs] at hperm
    have hdednil := hperm.nil_eq.symm
    have : merged.map MergedRow.entity = [] := by
      have hsub : merged.map MergedRow.entity ⊆ [] := by
        intro x hx
        rw [← hdednil]
        exact List.mem_dedup.mpr hx
      exact List.eq_nil_iff_forall_not_mem.mpr fun x hx => (List.not_mem_nil x) (hsub hx)
    exact h (List.map_eq_nil.mp this)
  | cons m rest =>
    refine ⟨m, ?_, ?_, ?_⟩
    · simp [default_dest, country_options, hs]
    · have hm : m ∈ sortedDedup (merged.map MergedRow.entity) := by
        rw [hs]; exact List.mem_cons_self _ _
      exact List.mem_dedup.mp ((List.perm_insertionSort _ _).subset hm)
    · intro n hn
      have hn' : n ∈ sortedDedup (merged.map MergedRow.entity) :=
        ((List.perm_insertionSort _ _).mem_iff).mpr (List.mem_dedup.mpr hn)
      rw [hs] at hn'
      have hsorted : List.Sorted (fun a b => strLe a b = true) (m :: rest) := by
        rw [← hs]
        exact List.sorted_insertionSort _ _
      rcases List.mem_cons.mp hn' with rfl | hmem
      · exact lexLe_refl n.data
      · exact List.rel_of_sorted_cons hsorted _ hmem

/-- A two-country merged table whose lexicographically least entity is "Angola". -/
def c10Merged : List MergedRow :=
  [{ entity := "Brazil", centroid_lon := 0, centroid_lat := 0, vals := [] },
   { entity := "Angola", centroid_lon := 0, centroid_lat := 0, vals := [] }]

theorem c10_witness :
    default_dest c10Merged = some "Angola" ∧ strLe "Angola" "Brazil" = true := by
  obtain ⟨m, hm, hmem, hmin⟩ := c10_default_dest_is_least c10Merged (by decide)
  have hm' : m = "Angola" := Option.some.inj (hm.symm.trans (by decide))
  subst hm'
  exact ⟨hm, hmin "Brazil" (by decide)⟩

/-- The input instantiating the amended C3: a single ordinary country, on whose
surviving names the renaming is trivially injective. -/
theorem c3_witness : ((load_migration_data c7Rows).map Prod.fst).Nodup :=
  c3_unique_row_keys_amended c7Rows (by decide) (by decide)

/-- The merged table instantiating C4: destination "D" and one other country. -/
def c4Merged : List MergedRow :=
  [{ entity := "D", centroid_lon := 1, centroid_lat := 2, vals := [(2020, 5)] },
   { entity := "A", centroid_lon := 3, centroid_lat := 4, vals := [(2020, 7)] }]

theorem c4_witness :
    flows c4Merged "D" 2020 =
      some [{ from_lon := 3, from_lat := 4, to_lon := 1, to_lat := 2, migrants := 7 }] := by
  have h := (c4_globe_flows c4Merged "D" 2020
    { entity := "D", centroid_lon := 1, centroid_lat := 2, vals := [(2020, 5)] }
    (by decide)).1
  rw [h]
  decide

/-- A wide table with one 4-cell row and one 5-cell row, instantiating C5. -/
def c5Table : WideTable :=
  [("Fourland", [some 1, some 2, some 3, some 4, none]),
   ("Fiveland", [some 1, some 2, some 3, some 4, some 5])]

theorem c5_witness :
    ("Fourland", [some (1 : ℚ), some 2, some 3, some 4, none]) ∉ dropThresh c5Table ∧
    ("Fiveland", [some (1 : ℚ), some 2, some 3, some 4, some 5]) ∈ dropThresh c5Table ∧
    (fillRow [some (1 : ℚ), some 2, some 3, some 4, some 5]).length =
      ([some (1 : ℚ), some 2, some 3, some 4, some 5] : List (Option ℚ)).length := by
  obtain ⟨h1, h2, h3⟩ := c5_threshold_and_full_fill c5Table
  refine ⟨h1 ("Fourland", [some (1 : ℚ), some 2, some 3, some 4, none])
      (by decide) (by decide),
    h2 ("Fiveland", [some (1 : ℚ), some 2, some 3, some 4, some 5])
      (by decide) (by decide), ?_⟩
  exact (h3 ("Fiveland", [some (1 : ℚ), some 2, some 3, some 4, some 5])
    (h2 ("Fiveland", [some (1 : ℚ), some 2, some 3, some 4, some 5])
      (by decide) (by decide))).1

end MigrationVis
